import Mathlib

/-!
Verification development for the retrieval core of the RAG-legal-chat project.

The Python sources are shallowly embedded as Lean functions:
 * `clean_and_chunk.py` — text normalization (`clean_text`) and paragraph
   chunking (`chunk_text_by_paragraphs`), modelled over `List Char`
   (one element per Python character).
 * `create_embeddings.py` — the offline index build (`createEmbeddingsMain`).
 * `vector_client.py` — client construction (`clientInit`), query search
   (`VCState.search`).
 * `retrieval_agent.py` — `retrieve` with its synthetic error records.

External libraries (faiss, sentence-transformers, sklearn) appear as oracle
fields of environment records: the embedding of this repository's code calls
them exactly where the source does, but their internal behaviour is not part
of this repository and stays abstract.
-/

namespace RagLegal

/-! ## Character classes -/

/-- Characters matched by the regex class `[ \t]` used in `clean_text`. -/
def isBlank (c : Char) : Bool := c == ' ' || c == '\t'

/-- Whitespace removed by Python `str.strip()` (the ASCII whitespace
characters: space, tab, newline, carriage return, vertical tab, form feed).
Python additionally strips some rare Unicode whitespace code points; the
idempotence and length arguments below do not depend on the exact set. -/
def isPyWs (c : Char) : Bool :=
  c == ' ' || c == '\t' || c == '\n' || c == '\r' ||
  c == Char.ofNat 11 || c == Char.ofNat 12

/-! ## clean_text (src/clean_and_chunk.py lines 42-50)

Each `re.sub`/`replace` stage is one function.  The stages that collapse or
delete runs are written as right folds: the recursive result is the already
rewritten tail, and the head character decides against the head of that
tail, which matches the effect of the leftmost–greedy regex rewrite on
maximal runs. -/

/-- Stage 1: `text.replace("\r\n", "\n").replace("\r", "\n")` as a single
left-to-right pass: a `"\r\n"` pair becomes one `'\n'`, a lone `'\r'`
becomes `'\n'`. -/
def normCR : List Char → List Char
  | [] => []
  | [c] => if c == '\r' then ['\n'] else [c]
  | c :: d :: cs2 =>
    if c == '\r' then
      if d == '\n' then '\n' :: normCR cs2 else '\n' :: normCR (d :: cs2)
    else c :: normCR (d :: cs2)

/-- Head test: does the list start with `'\n'`? -/
def headNL : List Char → Bool
  | d :: _ => d == '\n'
  | [] => false

/-- Stage 2: `re.sub(r"[ \t]+\n", "\n", text)` — delete every blank that
sits (through further blanks) immediately before a newline. -/
def sbnl : List Char → List Char
  | [] => []
  | c :: cs =>
    let r := sbnl cs
    if isBlank c && headNL r then r else c :: r

/-- Head test: does the list start with two `'\n'`? -/
def twoNL : List Char → Bool
  | a :: b :: _ => a == '\n' && b == '\n'
  | _ => false

/-- Stage 3: `re.sub(r"\n{3,}", "\n\n", text)` — a run of three or more
newlines collapses to exactly two. -/
def cnl : List Char → List Char
  | [] => []
  | c :: cs =>
    let r := cnl cs
    if c == '\n' && twoNL r then r else c :: r

/-- Head test: does the list start with a blank? -/
def headBlank : List Char → Bool
  | d :: _ => isBlank d
  | [] => false

/-- Stage 4: `re.sub(r"[ \t]{2,}", " ", text)` — a run of two or more
blanks collapses to a single space (a lone blank, e.g. a single tab, is
kept as is). -/
def cb : List Char → List Char
  | [] => []
  | c :: cs =>
    let r := cb cs
    if isBlank c then
      if headBlank r then ' ' :: r.tail
      else if r.isEmpty then [c]
      else c :: r
    else c :: r

/-- Remove the maximal whitespace suffix (the right half of `str.strip()`). -/
def dropTrailingWs : List Char → List Char
  | [] => []
  | c :: cs =>
    let r := dropTrailingWs cs
    if r.isEmpty && isPyWs c then [] else c :: r

/-- Python `str.strip()`: drop leading and trailing whitespace. -/
def pyStrip (l : List Char) : List Char :=
  dropTrailingWs (l.dropWhile isPyWs)

/-- Function `clean_text` (src/clean_and_chunk.py lines 42-50): the `if not text`
guard, then the four rewrite stages, then `strip()`. -/
def clean_text (s : List Char) : List Char :=
  if s = [] then [] else pyStrip (cb (cnl (sbnl (normCR s))))

/-! ## chunk_text_by_paragraphs (src/clean_and_chunk.py lines 52-86) -/

/-- Python `text.split("\n\n")`: split on the leftmost non-overlapping occurrences
of two consecutive newlines (Python `str.split` semantics, so an empty text
yields `[""]` and separators at the ends yield empty pieces). -/
def splitNN : List Char → List (List Char)
  | [] => [[]]
  | '\n' :: '\n' :: rest => [] :: splitNN rest
  | c :: rest =>
    match splitNN rest with
    | s :: ss => (c :: s) :: ss
    | [] => [[c]]

/-- Python slice `s[start:]` for an `int` start: a negative start counts
from the end and clamps at 0. -/
def pySliceFrom (s : List Char) (start : Int) : List Char :=
  if start < 0 then s.drop (max 0 ((s.length : Int) + start)).toNat
  else s.drop start.toNat

/-- The raw overlap seed `current_chunk[len(current_chunk) - overlap:]`
taken when a chunk is sealed (src/clean_and_chunk.py line 73, before the
final `.strip()`). -/
def overlapSeedRaw (cur : List Char) (overlap : Nat) : List Char :=
  pySliceFrom cur ((cur.length : Int) - (overlap : Int))

/-- The accumulation loop of `chunk_text_by_paragraphs` (lines 64-84):
`ps` are the remaining paragraphs and `cur` is `current_chunk`.  A
paragraph whose `strip()` is empty is skipped; a paragraph that would push
a non-empty current chunk past `max_chars` seals the chunk and seeds the
next one with the stripped overlap slice; otherwise the paragraph extends
the current chunk.  The final non-blank chunk is emitted stripped. -/
def chunkLoop (maxChars overlap : Nat) : List (List Char) → List Char → List (List Char)
  | [], cur => if pyStrip cur = [] then [] else [pyStrip cur]
  | p :: ps, cur =>
    if pyStrip p = [] then chunkLoop maxChars overlap ps cur
    else if cur.length + p.length + 2 > maxChars ∧ cur ≠ [] then
      pyStrip cur ::
        chunkLoop maxChars overlap ps
          (pyStrip (overlapSeedRaw cur overlap) ++ '\n' :: '\n' :: p)
    else if cur ≠ [] then chunkLoop maxChars overlap ps (cur ++ '\n' :: '\n' :: p)
    else chunkLoop maxChars overlap ps p

/-- Function `chunk_text_by_paragraphs(text, max_chars, overlap)`
(src/clean_and_chunk.py lines 52-86). -/
def chunk_text_by_paragraphs (text : List Char) (maxChars : Nat) (overlap : Nat) :
    List (List Char) :=
  if text = [] then [] else chunkLoop maxChars overlap (splitNN text) []

/-- Concrete input used to refute the stated chunk-size bound: two
paragraphs of lengths 8 and 9, both within `max_chars = 10`. -/
def c4Text : List Char := "abcdefgh\n\nxxxxxxxxx".toList

/-! ## Adjacency predicates used to settle the idempotence claim -/

/-- Does some adjacent pair of characters satisfy `p`? -/
def hasPair (p : Char → Char → Bool) : List Char → Bool
  | a :: b :: rest => p a b || hasPair p (b :: rest)
  | _ => false

/-- Do three consecutive newlines occur? -/
def hasNL3 : List Char → Bool
  | a :: b :: c :: rest => (a == '\n' && b == '\n' && c == '\n') || hasNL3 (b :: c :: rest)
  | _ => false

/-- Pair pattern of stage 2: a blank immediately before a newline. -/
def pBNL (a b : Char) : Bool := isBlank a && b == '\n'

/-- Pair pattern of stage 4: two adjacent blanks. -/
def pBB (a b : Char) : Bool := isBlank a && isBlank b

/-- First-pair test: `p` applied to `c` and the head of `r` (false on an
empty `r`). -/
def headP (p : Char → Char → Bool) (c : Char) : List Char → Bool
  | d :: _ => p c d
  | [] => false

/-! ## Shared numeric and record types for the vector side

Scores and vector components are Python floats; they are modelled as real
numbers and flow through the search pipeline opaquely (the repository never
branches on their values). -/

/-- A vector of float components (one numpy row). -/
abbrev Vec : Type := List ℝ

/-- A similarity score (a Python float). -/
abbrev Score : Type := ℝ

/-- Python string slice `s[:n]` (slicing is by characters). -/
def pyTake (s : String) (n : Nat) : String := (s.toList.take n).asString

/-- One entry of `metadata.json`: the dict written by
`create_embeddings.py` (lines 76-83); `.get` on a missing key yields
`None`, hence the `Option` fields. -/
structure MetaEntry where
  id : Option String
  source_id : Option String
  title : Option String
  path : Option String
  chunk_index : Option Int
  text : Option String
deriving DecidableEq

/-- Default entry used only to satisfy `List.getD` at positions already
checked to be in range. -/
def dMeta : MetaEntry := ⟨none, none, none, none, none, none⟩

/-! ## TF-IDF fallback encoding (src/vector_client.py lines 142-148)

`_encode` in `tfidf` mode: `transform` rows (the sklearn transform on the
vocabulary fitted at `_init_tfidf` time is an external oracle `tr`), then
the row-wise L2 normalization written out in the source:
`norms = np.linalg.norm(mat, axis=1); norms[norms == 0] = 1; mat / norms`. -/

/-- Sum of squares of a row (the square of its L2 norm). -/
def sumSq (v : List ℝ) : ℝ := (v.map (fun x => x ^ 2)).sum

/-- The norm `np.linalg.norm` of one row. -/
noncomputable def rowNorm (v : List ℝ) : ℝ := Real.sqrt (sumSq v)

open Classical in
/-- One row of `mat / norms` after `norms[norms == 0] = 1.0`: divide by the
row norm, or by 1 when the norm is zero. -/
noncomputable def pyNormRow (v : List ℝ) : List ℝ :=
  let n := if rowNorm v = 0 then 1 else rowNorm v
  v.map (fun x => x / n)

/-- The TF-IDF branch of `_encode`: one transformed, row-normalized row per
input text, in input order, all through the single fitted transform `tr`. -/
noncomputable def tfidfRows (tr : String → List ℝ) (texts : List String) : List (List ℝ) :=
  (texts.map tr).map pyNormRow

/-! ## The embedding backend of VectorClient

One constructor per `_embedder_mode`.  For the `injected` and `sbert`
modes the model object's `encode` (including the sbert `TypeError`-retry
loop around library-version differences) is an external oracle which may
raise (`Except.error`); the `tfidf` mode computes its rows in this file. -/

inductive Embedder where
  | injected (enc : List String → Except String (List Vec))
  | sbert (enc : List String → Except String (List Vec))
  | tfidf (tr : String → List ℝ)

/-- Method `_encode` (src/vector_client.py lines 125-154), dispatching on the
selected mode. -/
noncomputable def Embedder.encodeFn : Embedder → List String → Except String (List Vec)
  | .injected f, ts => f ts
  | .sbert f, ts => f ts
  | .tfidf tr, ts => .ok (tfidfRows tr ts)

/-! ## The loaded VectorClient -/

/-- The state a successfully constructed `VectorClient` carries: the
metadata list, whether the metadata JSON actually was a list (the
constructor only warns when it is not; no claim inspects search behaviour
on a non-list metadata object, so the entry list is left empty in that
case), the selected embedder, and the faiss oracles
(`faiss.normalize_L2`, whose failure is swallowed by `embed_query`, and
`index.search`, which may raise). -/
structure VCState where
  metadata : List MetaEntry
  metaIsList : Bool
  emb : Embedder
  normL2Ok : Bool
  normL2 : List Vec → List Vec
  indexSearch : List Vec → Int → Except String (List (Score × Int))

/-- Method `embed_query` (src/vector_client.py lines 156-168): encode the single
query, then best-effort `faiss.normalize_L2` — a normalization failure is
caught and the unnormalized vector is used; an encode failure propagates. -/
noncomputable def embed_query (c : VCState) (q : String) : Except String (List Vec) :=
  match c.emb.encodeFn [q] with
  | .error e => .error e
  | .ok rows => .ok (if c.normL2Ok then c.normL2 rows else rows)

/-- The clamp `if k <= 0: k = 1` of `search`. -/
def clampK (k : Int) : Int := if k ≤ 0 then 1 else k

/-- One result dict of `VectorClient.search` (src/vector_client.py lines
193-203). -/
structure SearchHit where
  score : Score
  id : Option String
  source_id : Option String
  title : Option String
  excerpt : String
  path : Option String
  chunk_index : Option Int

/-- The result dict built for one surviving `(score, idx)` pair
(src/vector_client.py lines 192-203); the excerpt is
`(meta.get("text") or "")[:800]`. -/
def mkHit (score : Score) (m : MetaEntry) : SearchHit :=
  ⟨score, m.id, m.source_id, m.title, pyTake (m.text.getD "") 800, m.path, m.chunk_index⟩

/-- The result-assembly loop of `search` (lines 182-203): skip a negative
position, skip (after logging) a position at or past the metadata length,
keep the rest in the order returned. -/
def searchAssemble (meta : List MetaEntry) : List (Score × Int) → List SearchHit
  | [] => []
  | (s, i) :: rest =>
    if i < 0 then searchAssemble meta rest
    else if (meta.length : Int) ≤ i then searchAssemble meta rest
    else mkHit s (meta.getD i.toNat dMeta) :: searchAssemble meta rest

/-- Method `VectorClient.search` (src/vector_client.py lines 170-204): embed the
query (an encode failure propagates uncaught), clamp `k`, run the index
search (a failure is re-raised as `"FAISS search failed: ..."`), then
assemble results. -/
noncomputable def VCState.search (c : VCState) (q : String) (k : Int) :
    Except String (List SearchHit) :=
  match embed_query c q with
  | .error e => .error e
  | .ok qv =>
    match c.indexSearch qv (clampK k) with
    | .error e => .error ("FAISS search failed: " ++ e)
    | .ok pairs => .ok (searchAssemble c.metadata pairs)

/-! ## VectorClient construction (src/vector_client.py lines 34-123) -/

/-- The parsed content of `metadata.json`: a JSON list of entry dicts; a
non-list value that still supports `len()` (a JSON object/dict or a
string, carrying its length); or a non-list value without `len()` (null,
a number or a boolean), on which the eager `len(self.metadata)` of the
constructor's info log (src/vector_client.py line 68) raises `TypeError`. -/
inductive MetaJson where
  | list (entries : List MetaEntry)
  | nonListSized (size : Nat)
  | nonListUnsized

/-- Entry list of a parsed metadata value; a non-list value carries no
entries in this model (no claim depends on search behaviour after a
non-list load). -/
def MetaJson.entries : MetaJson → List MetaEntry
  | .list l => l
  | .nonListSized _ => []
  | .nonListUnsized => []

/-- The `isinstance(self.metadata, list)` test. -/
def MetaJson.isList : MetaJson → Bool
  | .list _ => true
  | .nonListSized _ => false
  | .nonListUnsized => false

/-- Does `len(self.metadata)` succeed?  True for lists, dicts and strings;
false for null, numbers and booleans. -/
def MetaJson.hasLen : MetaJson → Bool
  | .list _ => true
  | .nonListSized _ => true
  | .nonListUnsized => false

/-- Everything `VectorClient.__init__` observes about the outside world:
file existence, library availability, the parsed metadata (`none` when
`json.load` itself raises), whether `faiss.read_index` succeeds, the
optional injected model, whether `SentenceTransformer(model_name)` loads,
and the external oracles carried into the client. `tfidfFit` is the
sklearn fit: corpus in, fitted transform out. -/
structure InitEnv where
  indexFileExists : Bool
  metaFileExists : Bool
  faissAvailable : Bool
  useChromaFallback : Bool
  metaParse : Option MetaJson
  faissLoadOk : Bool
  injectedModel : Option (List String → Except String (List Vec))
  sbertAvailable : Bool
  sbertLoadOk : Bool
  sbertEncode : List String → Except String (List Vec)
  tfidfAvailable : Bool
  tfidfFit : List String → (String → List ℝ)
  normL2Ok : Bool
  normL2 : List Vec → List Vec
  indexSearch : List Vec → Int → Except String (List (Score × Int))

/-- The exceptions `__init__` can raise, in source order. -/
inductive InitError where
  | fileNotFound
  | chromaNotImplemented
  | faissUnavailable
  | jsonLoadFailed
  | metadataLenFailed
  | faissLoadFailed
  | sbertFailedNoFallback
  | noEmbedder
deriving DecidableEq

/-- Representative message text of each `__init__` exception (paths and
the wrapped inner errors of the source's f-strings are elided). -/
def InitError.msg : InitError → String
  | .fileNotFound => "Index or metadata not found in the index directory"
  | .chromaNotImplemented =>
      "FAISS not available on this platform - Chroma fallback not implemented in this file."
  | .faissUnavailable => "faiss not available."
  | .jsonLoadFailed => "metadata.json could not be parsed"
  | .metadataLenFailed => "object has no len()"
  | .faissLoadFailed => "Failed to load FAISS index"
  | .sbertFailedNoFallback =>
      "Failed to load sentence-transformers model and TF-IDF fallback not available."
  | .noEmbedder =>
      "sentence-transformers not installed and TF-IDF fallback not available."

/-- The corpus `_init_tfidf` fits on (src/vector_client.py lines 112-115):
`m.get("text") if isinstance(m, dict) else ""`, then `t or ""`.  Entries
of a list metadata are dicts in this model.  Iterating a dict yields its
keys and iterating a string its characters — never dicts — so a
len-supporting non-list value of length `n` contributes `n` empty texts;
a len-less value cannot reach `_init_tfidf` (construction already raised
at the eager `len()`). -/
def tfidfCorpus (mj : MetaJson) : List String :=
  match mj with
  | .list l => l.map (fun m => m.text.getD "")
  | .nonListSized n => List.replicate n ""
  | .nonListUnsized => []

/-- Method `_init_tfidf` (lines 109-123): fit once on the metadata texts, or on
`[""]` when there are none, and select the `tfidf` mode. -/
def initTfidf (env : InitEnv) (mj : MetaJson) : Embedder :=
  let texts := tfidfCorpus mj
  .tfidf (env.tfidfFit (if texts.length = 0 then [""] else texts))

/-- The client a successful `__init__` returns. -/
def mkClient (env : InitEnv) (mj : MetaJson) (e : Embedder) : VCState :=
  ⟨mj.entries, mj.isList, e, env.normL2Ok, env.normL2, env.indexSearch⟩

/-- Constructor `VectorClient.__init__` (src/vector_client.py lines 34-107), in source
order: missing index or metadata file raises `FileNotFoundError`; missing
faiss raises (with a Chroma-specific message under `use_chroma_fallback`);
`json.load` failure propagates; a metadata value that is not a list only
triggers `logger.warning` (line 67), but the very next statement
`logger.info("Loaded %d metadata entries", len(self.metadata))` (line 68)
evaluates `len(self.metadata)` eagerly, so a parsed value without `len()`
(null, a number or a boolean) raises `TypeError` there, while a dict or a
string proceeds; a faiss index load failure raises; then the embedder is
selected: injected model first, else sentence-transformers (falling back
to TF-IDF if the model load fails), else TF-IDF, else a fatal error. -/
def clientInit (env : InitEnv) : Except InitError VCState :=
  if !env.indexFileExists || !env.metaFileExists then .error .fileNotFound
  else if !env.faissAvailable then
    .error (if env.useChromaFallback then .chromaNotImplemented else .faissUnavailable)
  else
    match env.metaParse with
    | none => .error .jsonLoadFailed
    | some mj =>
      if !mj.hasLen then .error .metadataLenFailed
      else if !env.faissLoadOk then .error .faissLoadFailed
      else
        match env.injectedModel with
        | some f => .ok (mkClient env mj (.injected f))
        | none =>
          if env.sbertAvailable then
            if env.sbertLoadOk then .ok (mkClient env mj (.sbert env.sbertEncode))
            else if env.tfidfAvailable then .ok (mkClient env mj (initTfidf env mj))
            else .error .sbertFailedNoFallback
          else if env.tfidfAvailable then .ok (mkClient env mj (initTfidf env mj))
          else .error .noEmbedder

/-- Does construction succeed (no exception)? -/
def initOk (env : InitEnv) : Bool :=
  match clientInit env with
  | .ok _ => true
  | .error _ => false

/-- Some embedding backend is selectable: an injected model, a loadable
sentence-transformers model, or the TF-IDF fallback. -/
def embedderAvailable (env : InitEnv) : Bool :=
  env.injectedModel.isSome || (env.sbertAvailable && env.sbertLoadOk) || env.tfidfAvailable

/-- The metadata load step (src/vector_client.py lines 63-68) completes
without raising: `json.load` parses, and the parsed value supports
`len()` (a list, dict or string — not null, a number or a boolean). -/
def metaLoadOk (env : InitEnv) : Bool :=
  match env.metaParse with
  | some mj => mj.hasLen
  | none => false

/-! ## retrieval_agent.py -/

/-- Function `get_client` (src/retrieval_agent.py lines 12-37): construct the
client (the process-lifetime cache only memoizes the successful result and
does not change the per-environment outcome modelled here); a constructor
exception is re-raised as the `RuntimeError` text below. -/
def get_client (env : InitEnv) : Except String VCState :=
  match clientInit env with
  | .ok c => .ok c
  | .error e =>
      .error ("VectorClient failed to load.\nCheck your FAISS index + metadata and ensure sentence-transformers or TF-IDF fallback works.\nError: " ++ e.msg)

/-- The record shape `retrieve` returns (the search hit's `id` key is
dropped by the projection loop).  The error records carry the literal
title string `"ERROR"`. -/
structure RagRec where
  score : Score
  source_id : Option String
  title : Option String
  excerpt : String
  path : Option String
  chunk_index : Option Int

/-- The synthetic degraded-mode record (src/retrieval_agent.py lines
48-55 and 61-68): zero score, `"ERROR"` title, the message as excerpt,
null remaining fields. -/
def errRec (msg : String) : RagRec := ⟨0, none, some "ERROR", msg, none, none⟩

/-- The projection of one search hit performed by `retrieve`'s output loop
(lines 70-79). -/
def hitToRag (h : SearchHit) : RagRec :=
  ⟨h.score, h.source_id, h.title, h.excerpt, h.path, h.chunk_index⟩

/-- Function `retrieve` (src/retrieval_agent.py lines 40-81).  Both the client
construction and the search are wrapped in `try/except`, so this function
is total — no exception crosses its boundary; each failure becomes a
single synthetic error record. -/
noncomputable def retrieve (env : InitEnv) (query : String) (top_k : Int) : List RagRec :=
  match get_client env with
  | .error e => [errRec ("VectorClient initialization failed: " ++ e)]
  | .ok c =>
    match c.search query top_k with
    | .error e => [errRec ("Vector search failed: " ++ e)]
    | .ok hits => hits.map hitToRag

/-! ## create_embeddings.py -/

/-- One record loaded from the chunk `.jsonl` files; `main` reads
`r["text"]` unconditionally (records produced by the chunking step always
carry it) and `.get`s the remaining keys. -/
structure ChunkRecord where
  id : Option String
  source_id : Option String
  title : Option String
  path : Option String
  chunk_index : Option Int
  text : String

/-- A flat inner-product faiss index: `add` appends rows in order and
`ntotal` counts them. -/
structure FlatIndex where
  vectors : List Vec

/-- The count `index.ntotal`. -/
def FlatIndex.ntotal (ix : FlatIndex) : Nat := ix.vectors.length

/-- The externals `create_embeddings.main` uses: faiss availability, the
batch `model.encode` (one row per input text, an external contract), and
`faiss.normalize_L2` acting on each row. -/
structure BuildEnv where
  faissAvailable : Bool
  encode : List String → List Vec
  normRow : Vec → Vec

/-- One `metadata.json` entry written by `main` (lines 76-83): the record
fields plus the text truncated to 1200 characters. -/
def minimalMetaOf (r : ChunkRecord) : MetaEntry :=
  ⟨r.id, r.source_id, r.title, r.path, r.chunk_index, some (pyTake r.text 1200)⟩

/-- Function `build_faiss_index` (src/create_embeddings.py lines 28-44): raises if
faiss is missing, otherwise L2-normalizes the rows in place and adds them
all, in order, to a fresh flat index. -/
def build_faiss_index (env : BuildEnv) (embs : List Vec) : Option FlatIndex :=
  if !env.faissAvailable then none
  else some ⟨embs.map env.normRow⟩

/-- The persisted pair a successful build writes. -/
structure BuildOut where
  index : FlatIndex
  metadata : List MetaEntry

/-- Function `main` (src/create_embeddings.py lines 46-85): with no records it
returns early without building; otherwise it embeds `r["text"]` of every
record in order, builds the index from those rows, and writes one
metadata entry per record in the same order. -/
def createEmbeddingsMain (env : BuildEnv) (records : List ChunkRecord) : Option BuildOut :=
  if records.isEmpty then none
  else
    match build_faiss_index env (env.encode (records.map (fun r => r.text))) with
    | none => none
    | some ix => some ⟨ix, records.map minimalMetaOf⟩


/-! ## Concrete fixtures used by witnesses and counterexamples -/

/-- A trivial injected embedding model used by concrete witnesses. -/
def injOne : List String → Except String (List Vec) := fun _ => .ok [[1]]

/-- Environment refuting the stated form of claim C1: both artifact files
exist, faiss imports and loads, an injected model is supplied, and the
metadata JSON parses to a non-list value that supports `len()` (e.g. a
JSON object with three keys). -/
def envC1 : InitEnv :=
  ⟨true, true, true, false, some (.nonListSized 3), true, some injOne, false, false,
   fun _ => .ok [], false, fun _ _ => [], false, id, fun _ _ => .ok []⟩

/-- Environment for the C2 witness: the index file is missing, so client
construction raises. -/
def envW2 : InitEnv :=
  ⟨false, true, true, false, some (.list []), true, some injOne, false, false,
   fun _ => .ok [], false, fun _ _ => [], false, id, fun _ _ => .ok []⟩

/-- A 900-character text, longer than the 800-character excerpt bound. -/
def longText : String := String.mk (List.replicate 900 'a')

/-- One metadata entry carrying the long text. -/
def mLong : MetaEntry := ⟨some "d_chunk_0", some "d", some "T", some "p", some 0, some longText⟩

/-- Concrete client for the search witnesses: injected embedder, one
metadata entry, and an index oracle returning a negative, an
out-of-range and a valid position. -/
def cW : VCState :=
  ⟨[mLong], true, .injected injOne, false, id, fun _ _ => .ok [(1, -1), (1, 5), (1, 0)]⟩

/-- Build environment for the C3 witness. -/
def bEnvW : BuildEnv := ⟨true, fun ts => ts.map (fun _ => [1]), id⟩

/-- One chunk record for the C3 witness. -/
def recW : ChunkRecord := ⟨some "doc_chunk_0", some "doc", some "doc", none, some 0, "hello world"⟩

/-- A fitted-transform oracle for the C9 witness. -/
def trW : String → List ℝ := fun _ => [3, 4]


/-!
# Theorems

Helper lemmas first, then one named theorem per claim (with witnesses and
counterexamples where required).
-/


/-! Boolean helpers -/

theorem bor_false {a b : Bool} (h : (a || b) = false) : a = false ∧ b = false := by
  cases a <;> cases b <;> simp_all

theorem band_true {a b : Bool} (h : (a && b) = true) : a = true ∧ b = true := by
  cases a <;> cases b <;> simp_all

/-! Unfolding equations -/

theorem sbnl_cons (c : Char) (cs : List Char) :
    sbnl (c :: cs) = if isBlank c && headNL (sbnl cs) then sbnl cs else c :: sbnl cs := rfl

theorem cnl_cons (c : Char) (cs : List Char) :
    cnl (c :: cs) = if c == '\n' && twoNL (cnl cs) then cnl cs else c :: cnl cs := rfl

theorem cb_cons (c : Char) (cs : List Char) :
    cb (c :: cs) =
      if isBlank c then
        if headBlank (cb cs) then ' ' :: (cb cs).tail
        else if (cb cs).isEmpty then [c]
        else c :: cb cs
      else c :: cb cs := rfl

theorem dtw_cons (c : Char) (cs : List Char) :
    dropTrailingWs (c :: cs) =
      if (dropTrailingWs cs).isEmpty && isPyWs c then [] else c :: dropTrailingWs cs := rfl

theorem normCR_one (c : Char) : normCR [c] = if c == '\r' then ['\n'] else [c] := by
  rw [normCR]

theorem normCR_two (c d : Char) (cs2 : List Char) :
    normCR (c :: d :: cs2) =
      if c == '\r' then
        if d == '\n' then '\n' :: normCR cs2 else '\n' :: normCR (d :: cs2)
      else c :: normCR (d :: cs2) := by
  rw [normCR]

/-! Basic pair/triple lemmas -/

theorem hasPair_cons (p : Char → Char → Bool) (c : Char) (r : List Char) :
    hasPair p (c :: r) = (headP p c r || hasPair p r) := by
  cases r <;> simp [hasPair, headP]

theorem hasPair_tail {p : Char → Char → Bool} {c : Char} {r : List Char}
    (h : hasPair p (c :: r) = false) : hasPair p r = false := by
  rw [hasPair_cons] at h
  exact (bor_false h).2

theorem hasPair_head {p : Char → Char → Bool} {c : Char} {r : List Char}
    (h : hasPair p (c :: r) = false) : headP p c r = false := by
  rw [hasPair_cons] at h
  exact (bor_false h).1

theorem hasNL3_cons (c : Char) (r : List Char) :
    hasNL3 (c :: r) = ((c == '\n' && twoNL r) || hasNL3 r) := by
  match r with
  | [] => simp [hasNL3, twoNL]
  | [a] => simp [hasNL3, twoNL]
  | a :: b :: rs => simp [hasNL3, twoNL, Bool.and_assoc]

theorem hasNL3_tail {c : Char} {r : List Char}
    (h : hasNL3 (c :: r) = false) : hasNL3 r = false := by
  rw [hasNL3_cons] at h
  exact (bor_false h).2

theorem hasNL3_head {c : Char} {r : List Char}
    (h : hasNL3 (c :: r) = false) : (c == '\n' && twoNL r) = false := by
  rw [hasNL3_cons] at h
  exact (bor_false h).1

theorem twoNL_cons (c : Char) (r : List Char) :
    twoNL (c :: r) = (c == '\n' && headNL r) := by
  cases r <;> simp [twoNL, headNL]

theorem headP_pBNL (c : Char) (r : List Char) :
    headP pBNL c r = (isBlank c && headNL r) := by
  cases r <;> simp [headP, pBNL, headNL]

theorem headP_pBB (c : Char) (r : List Char) :
    headP pBB c r = (isBlank c && headBlank r) := by
  cases r <;> simp [headP, pBB, headBlank]

theorem blank_ne_nl {c : Char} (h : isBlank c = true) : (c == '\n') = false := by
  simp only [isBlank, Bool.or_eq_true, beq_iff_eq] at h
  rcases h with h1 | h1 <;> subst h1 <;> decide

theorem headNL_cons (c : Char) (r : List Char) : headNL (c :: r) = (c == '\n') := rfl

theorem twoNL_headNL {l : List Char} (h : twoNL l = true) : headNL l = true := by
  match l with
  | [] => simp [twoNL] at h
  | [a] => simp [twoNL] at h
  | a :: b :: rs =>
    have := (band_true h).1
    simp [headNL, twoNL] at h ⊢
    exact h.1

/-! normCR -/

theorem normCR_no_cr : ∀ (l : List Char), '\r' ∉ normCR l
  | [] => by simp [normCR]
  | [c] => by
    rw [normCR_one]
    by_cases hc : (c == '\r') = true
    · rw [if_pos hc]; decide
    · rw [if_neg hc]
      simp only [Bool.not_eq_true, beq_eq_false_iff_ne] at hc
      simp [Ne.symm hc]
  | c :: d :: cs2 => by
    rw [normCR_two]
    by_cases hc : (c == '\r') = true
    · rw [if_pos hc]
      by_cases hd : (d == '\n') = true
      · rw [if_pos hd]
        intro hmem
        rcases List.mem_cons.mp hmem with h1 | h1
        · exact absurd h1 (by decide)
        · exact normCR_no_cr cs2 h1
      · rw [if_neg hd]
        intro hmem
        rcases List.mem_cons.mp hmem with h1 | h1
        · exact absurd h1 (by decide)
        · exact normCR_no_cr (d :: cs2) h1
    · rw [if_neg hc]
      intro hmem
      rcases List.mem_cons.mp hmem with h1 | h1
      · simp only [Bool.not_eq_true, beq_eq_false_iff_ne] at hc
        exact hc h1.symm
      · exact normCR_no_cr (d :: cs2) h1

theorem normCR_id : ∀ (l : List Char), '\r' ∉ l → normCR l = l
  | [], _ => rfl
  | [c], h => by
    have hc : (c == '\r') = false := by
      simp only [List.mem_singleton] at h
      exact beq_eq_false_iff_ne.mpr fun e => h e.symm
    rw [normCR_one, if_neg (by simp [hc])]
  | c :: d :: cs2, h => by
    have hc : (c == '\r') = false := by
      simp only [List.mem_cons, not_or] at h
      exact beq_eq_false_iff_ne.mpr fun e => h.1 e.symm
    have ht : '\r' ∉ d :: cs2 := by
      simp only [List.mem_cons, not_or] at h ⊢
      exact ⟨h.2.1, h.2.2⟩
    rw [normCR_two, if_neg (by simp [hc]), normCR_id (d :: cs2) ht]

/-! sbnl -/

theorem sbnl_mem {a : Char} {l : List Char} (h : a ∈ sbnl l) : a ∈ l := by
  induction l with
  | nil => simp [sbnl] at h
  | cons c cs ih =>
    rw [sbnl_cons] at h
    split at h
    · exact List.mem_cons_of_mem _ (ih h)
    · rcases List.mem_cons.mp h with h1 | h1
      · exact h1 ▸ List.mem_cons_self _ _
      · exact List.mem_cons_of_mem _ (ih h1)

theorem sbnl_pBNL (l : List Char) : hasPair pBNL (sbnl l) = false := by
  induction l with
  | nil => simp [sbnl, hasPair]
  | cons c cs ih =>
    rw [sbnl_cons]
    split
    · exact ih
    · next hcond =>
      rw [hasPair_cons, ih, headP_pBNL, Bool.or_false]
      simpa using hcond

theorem sbnl_id {l : List Char} (h : hasPair pBNL l = false) : sbnl l = l := by
  induction l with
  | nil => rfl
  | cons c cs ih =>
    have ht := ih (hasPair_tail h)
    have hh := hasPair_head h
    rw [headP_pBNL] at hh
    rw [sbnl_cons, ht, hh]
    simp

/-! cnl -/

theorem cnl_mem {a : Char} {l : List Char} (h : a ∈ cnl l) : a ∈ l ∨ a = '\n' := by
  induction l with
  | nil => simp [cnl] at h
  | cons c cs ih =>
    rw [cnl_cons] at h
    split at h
    · rcases ih h with h1 | h1
      · exact Or.inl (List.mem_cons_of_mem _ h1)
      · exact Or.inr h1
    · rcases List.mem_cons.mp h with h1 | h1
      · exact Or.inl (h1 ▸ List.mem_cons_self _ _)
      · rcases ih h1 with h2 | h2
        · exact Or.inl (List.mem_cons_of_mem _ h2)
        · exact Or.inr h2

theorem cnl_headNL (l : List Char) : headNL (cnl l) = headNL l := by
  induction l with
  | nil => rfl
  | cons c cs ih =>
    rw [cnl_cons]
    split
    · next hcond =>
      have h1 := (band_true hcond).1
      have h2 := twoNL_headNL (band_true hcond).2
      rw [headNL_cons, h2, h1]
    · rw [headNL_cons, headNL_cons]

theorem cnl_hasNL3 (l : List Char) : hasNL3 (cnl l) = false := by
  induction l with
  | nil => simp [cnl, hasNL3]
  | cons c cs ih =>
    rw [cnl_cons]
    split
    · exact ih
    · next hcond =>
      rw [hasNL3_cons, ih, Bool.or_false]
      simpa using hcond

theorem cnl_id {l : List Char} (h : hasNL3 l = false) : cnl l = l := by
  induction l with
  | nil => rfl
  | cons c cs ih =>
    have ht := ih (hasNL3_tail h)
    have hh := hasNL3_head h
    rw [cnl_cons, ht, hh]
    simp

theorem cnl_pBNL {l : List Char} (h : hasPair pBNL l = false) :
    hasPair pBNL (cnl l) = false := by
  induction l with
  | nil => simp [cnl, hasPair]
  | cons c cs ih =>
    have ih' := ih (hasPair_tail h)
    rw [cnl_cons]
    split
    · exact ih'
    · rw [hasPair_cons, ih', headP_pBNL, cnl_headNL, Bool.or_false]
      have hh := hasPair_head h
      rw [headP_pBNL] at hh
      exact hh

/-! cb -/

theorem tail_mem {a : Char} {l : List Char} (h : a ∈ l.tail) : a ∈ l := by
  cases l with
  | nil => simp at h
  | cons c cs => exact List.mem_cons_of_mem _ h

theorem cb_mem {a : Char} {l : List Char} (h : a ∈ cb l) : a ∈ l ∨ a = ' ' := by
  induction l with
  | nil => simp [cb] at h
  | cons c cs ih =>
    rw [cb_cons] at h
    split at h
    · split at h
      · rcases List.mem_cons.mp h with h1 | h1
        · exact Or.inr h1
        · rcases ih (tail_mem h1) with h2 | h2
          · exact Or.inl (List.mem_cons_of_mem _ h2)
          · exact Or.inr h2
      · split at h
        · simp only [List.mem_singleton] at h
          exact Or.inl (h ▸ List.mem_cons_self _ _)
        · rcases List.mem_cons.mp h with h1 | h1
          · exact Or.inl (h1 ▸ List.mem_cons_self _ _)
          · rcases ih h1 with h2 | h2
            · exact Or.inl (List.mem_cons_of_mem _ h2)
            · exact Or.inr h2
    · rcases List.mem_cons.mp h with h1 | h1
      · exact Or.inl (h1 ▸ List.mem_cons_self _ _)
      · rcases ih h1 with h2 | h2
        · exact Or.inl (List.mem_cons_of_mem _ h2)
        · exact Or.inr h2

theorem cb_headNL (l : List Char) : headNL (cb l) = headNL l := by
  cases l with
  | nil => rfl
  | cons c cs =>
    rw [cb_cons]
    by_cases hbl : isBlank c = true
    · have hc := blank_ne_nl hbl
      rw [if_pos hbl]
      by_cases hhb : headBlank (cb cs) = true
      · rw [if_pos hhb]; simp [headNL, hc]
      · rw [if_neg hhb]
        by_cases he : (cb cs).isEmpty = true
        · rw [if_pos he]; simp [headNL, hc]
        · rw [if_neg he]; simp [headNL]
    · rw [if_neg hbl]; simp [headNL]

theorem cb_twoNL (l : List Char) : twoNL (cb l) = twoNL l := by
  cases l with
  | nil => rfl
  | cons c cs =>
    rw [cb_cons, twoNL_cons c cs]
    by_cases hbl : isBlank c = true
    · have hc := blank_ne_nl hbl
      rw [if_pos hbl, hc, Bool.false_and]
      by_cases hhb : headBlank (cb cs) = true
      · rw [if_pos hhb, twoNL_cons, show (' ' == '\n') = false from rfl, Bool.false_and]
      · rw [if_neg hhb]
        by_cases he : (cb cs).isEmpty = true
        · rw [if_pos he]; rfl
        · rw [if_neg he, twoNL_cons, hc, Bool.false_and]
    · rw [if_neg hbl, twoNL_cons, cb_headNL]

theorem cb_pBB (l : List Char) : hasPair pBB (cb l) = false := by
  induction l with
  | nil => simp [cb, hasPair]
  | cons c cs ih =>
    rw [cb_cons]
    by_cases hbl : isBlank c = true
    · rw [if_pos hbl]
      by_cases hhb : headBlank (cb cs) = true
      · rw [if_pos hhb]
        cases hr : cb cs with
        | nil => rw [hr] at hhb; simp [headBlank] at hhb
        | cons d rs =>
          rw [hr] at ih hhb
          simp only [List.tail_cons]
          rw [hasPair_cons, hasPair_tail ih, Bool.or_false]
          have h1 := hasPair_head ih
          rw [headP_pBB] at h1 ⊢
          simp only [headBlank] at hhb
          rw [hhb, Bool.true_and] at h1
          simp [h1]
      · rw [if_neg hhb]
        by_cases he : (cb cs).isEmpty = true
        · rw [if_pos he]; simp [hasPair]
        · rw [if_neg he, hasPair_cons, ih, Bool.or_false, headP_pBB]
          simp only [Bool.not_eq_true] at hhb
          simp [hhb]
    · rw [if_neg hbl, hasPair_cons, ih, Bool.or_false, headP_pBB]
      simp only [Bool.not_eq_true] at hbl
      simp [hbl]

theorem cb_id {l : List Char} (h : hasPair pBB l = false) : cb l = l := by
  induction l with
  | nil => rfl
  | cons c cs ih =>
    have ht := ih (hasPair_tail h)
    rw [cb_cons, ht]
    by_cases hbl : isBlank c = true
    · have hh := hasPair_head h
      rw [headP_pBB, hbl, Bool.true_and] at hh
      rw [if_pos hbl, if_neg (by simp [hh])]
      cases cs with
      | nil => rfl
      | cons d rs => rfl
    · rw [if_neg hbl]

theorem cb_pBNL {l : List Char} (h : hasPair pBNL l = false) :
    hasPair pBNL (cb l) = false := by
  induction l with
  | nil => simp [cb, hasPair]
  | cons c cs ih =>
    have ih' := ih (hasPair_tail h)
    have hh := hasPair_head h
    rw [headP_pBNL] at hh
    rw [cb_cons]
    by_cases hbl : isBlank c = true
    · rw [hbl, Bool.true_and] at hh
      rw [if_pos hbl]
      by_cases hhb : headBlank (cb cs) = true
      · rw [if_pos hhb]
        cases hr : cb cs with
        | nil => rw [hr] at hhb; simp [headBlank] at hhb
        | cons d rs =>
          rw [hr] at ih' hhb
          simp only [List.tail_cons]
          rw [hasPair_cons, hasPair_tail ih', Bool.or_false, headP_pBNL]
          have h1 := hasPair_head ih'
          rw [headP_pBNL] at h1
          simp only [headBlank] at hhb
          rw [hhb, Bool.true_and] at h1
          simp [h1]
      · rw [if_neg hhb]
        by_cases he : (cb cs).isEmpty = true
        · rw [if_pos he]; simp [hasPair]
        · rw [if_neg he, hasPair_cons, ih', Bool.or_false, headP_pBNL, cb_headNL]
          simp [hh]
    · rw [if_neg hbl, hasPair_cons, ih', Bool.or_false, headP_pBNL]
      simp only [Bool.not_eq_true] at hbl
      simp [hbl]

theorem cb_hasNL3 {l : List Char} (h : hasNL3 l = false) : hasNL3 (cb l) = false := by
  induction l with
  | nil => simp [cb, hasNL3]
  | cons c cs ih =>
    have ih' := ih (hasNL3_tail h)
    have hh := hasNL3_head h
    rw [cb_cons]
    by_cases hbl : isBlank c = true
    · have hc := blank_ne_nl hbl
      rw [if_pos hbl]
      by_cases hhb : headBlank (cb cs) = true
      · rw [if_pos hhb]
        cases hr : cb cs with
        | nil => rw [hr] at hhb; simp [headBlank] at hhb
        | cons d rs =>
          rw [hr] at ih'
          simp only [List.tail_cons]
          rw [hasNL3_cons, hasNL3_tail ih', Bool.or_false,
            show (' ' == '\n') = false from rfl, Bool.false_and]
      · rw [if_neg hhb]
        by_cases he : (cb cs).isEmpty = true
        · rw [if_pos he]; simp [hasNL3]
        · rw [if_neg he, hasNL3_cons, ih', Bool.or_false, hc, Bool.false_and]
    · rw [if_neg hbl, hasNL3_cons, ih', Bool.or_false, cb_twoNL, hh]

/-! append decomposition and pyStrip preservation -/

theorem hasPair_appL {p : Char → Char → Bool} :
    ∀ (a b : List Char), hasPair p (a ++ b) = false → hasPair p a = false := by
  intro a
  induction a with
  | nil => intro b _; rfl
  | cons x a' ih =>
    intro b h
    rw [List.cons_append] at h
    have ht := hasPair_tail h
    have hh := hasPair_head h
    rw [hasPair_cons, ih b ht, Bool.or_false]
    cases a' with
    | nil => simp [headP]
    | cons y a'' => simpa [headP] using hh

theorem hasPair_appR {p : Char → Char → Bool} :
    ∀ (a b : List Char), hasPair p (a ++ b) = false → hasPair p b = false := by
  intro a
  induction a with
  | nil => intro b h; simpa using h
  | cons x a' ih =>
    intro b h
    rw [List.cons_append] at h
    exact ih b (hasPair_tail h)

theorem hasNL3_appL :
    ∀ (a b : List Char), hasNL3 (a ++ b) = false → hasNL3 a = false := by
  intro a
  induction a with
  | nil => intro b _; rfl
  | cons x a' ih =>
    intro b h
    rw [List.cons_append] at h
    have ht := hasNL3_tail h
    have hh := hasNL3_head h
    rw [hasNL3_cons, ih b ht, Bool.or_false]
    match a' with
    | [] => simp [twoNL]
    | [y] => simp [twoNL]
    | y :: z :: a'' => simpa [twoNL] using hh

theorem hasNL3_appR :
    ∀ (a b : List Char), hasNL3 (a ++ b) = false → hasNL3 b = false := by
  intro a
  induction a with
  | nil => intro b h; simpa using h
  | cons x a' ih =>
    intro b h
    rw [List.cons_append] at h
    exact ih b (hasNL3_tail h)

theorem dtw_decomp (l : List Char) : ∃ t, l = dropTrailingWs l ++ t := by
  induction l with
  | nil => exact ⟨[], rfl⟩
  | cons c cs ih =>
    obtain ⟨t, ht⟩ := ih
    rw [dtw_cons]
    split
    · exact ⟨c :: cs, rfl⟩
    · exact ⟨t, by rw [List.cons_append, ← ht]⟩

theorem pyStrip_hasPair {p : Char → Char → Bool} {l : List Char}
    (h : hasPair p l = false) : hasPair p (pyStrip l) = false := by
  have h1 : hasPair p (l.dropWhile isPyWs) = false :=
    hasPair_appR _ _ (by rw [List.takeWhile_append_dropWhile]; exact h)
  obtain ⟨t, ht⟩ := dtw_decomp (l.dropWhile isPyWs)
  unfold pyStrip
  exact hasPair_appL _ _ (by rw [← ht]; exact h1)

theorem pyStrip_hasNL3 {l : List Char}
    (h : hasNL3 l = false) : hasNL3 (pyStrip l) = false := by
  have h1 : hasNL3 (l.dropWhile isPyWs) = false :=
    hasNL3_appR _ _ (by rw [List.takeWhile_append_dropWhile]; exact h)
  obtain ⟨t, ht⟩ := dtw_decomp (l.dropWhile isPyWs)
  unfold pyStrip
  exact hasNL3_appL _ _ (by rw [← ht]; exact h1)

theorem pyStrip_mem {a : Char} {l : List Char} (h : a ∈ pyStrip l) : a ∈ l := by
  obtain ⟨t, ht⟩ := dtw_decomp (l.dropWhile isPyWs)
  have h1 : a ∈ l.dropWhile isPyWs := by
    rw [ht]
    exact List.mem_append_left _ h
  rw [← List.takeWhile_append_dropWhile (p := isPyWs) (l := l)]
  exact List.mem_append_right _ h1

/-! pyStrip is idempotent -/

theorem dtw_idem (l : List Char) : dropTrailingWs (dropTrailingWs l) = dropTrailingWs l := by
  induction l with
  | nil => rfl
  | cons c cs ih =>
    rw [dtw_cons]
    split
    · rfl
    · next hcond =>
      rw [dtw_cons, ih]
      rw [if_neg (by simpa using hcond)]

theorem dw_head_not_ws {l : List Char} {c : Char} {cs : List Char}
    (h : l.dropWhile isPyWs = c :: cs) : isPyWs c = false := by
  induction l with
  | nil => simp at h
  | cons x l' ih =>
    rw [List.dropWhile_cons] at h
    split at h
    · exact ih h
    · next hx =>
      rw [List.cons.injEq] at h
      rw [← h.1]
      simpa using hx

theorem dtw_cons_shape (c : Char) (cs : List Char) :
    dropTrailingWs (c :: cs) = [] ∨ ∃ r, dropTrailingWs (c :: cs) = c :: r := by
  rw [dtw_cons]
  split
  · exact Or.inl rfl
  · exact Or.inr ⟨_, rfl⟩

theorem pyStrip_idem (l : List Char) : pyStrip (pyStrip l) = pyStrip l := by
  unfold pyStrip
  have hdw : (dropTrailingWs (l.dropWhile isPyWs)).dropWhile isPyWs
      = dropTrailingWs (l.dropWhile isPyWs) := by
    cases hmm : l.dropWhile isPyWs with
    | nil => rfl
    | cons c cs =>
      have hc := dw_head_not_ws hmm
      rcases dtw_cons_shape c cs with hsh | ⟨r, hsh⟩
      · rw [hsh]; rfl
      · rw [hsh, List.dropWhile_cons, hc]
        simp
  rw [hdw, dtw_idem]

/-! clean_text invariants and the idempotence theorem (claim C5) -/

theorem clean_text_no_cr (s : List Char) : '\r' ∉ clean_text s := by
  rw [clean_text]
  split
  · simp
  · intro h
    have h1 := pyStrip_mem h
    rcases cb_mem h1 with h2 | h2
    · rcases cnl_mem h2 with h3 | h3
      · exact normCR_no_cr s (sbnl_mem h3)
      · exact absurd h3 (by decide)
    · exact absurd h2 (by decide)

theorem clean_text_pBNL (s : List Char) : hasPair pBNL (clean_text s) = false := by
  rw [clean_text]
  split
  · rfl
  · exact pyStrip_hasPair (cb_pBNL (cnl_pBNL (sbnl_pBNL (normCR s))))

theorem clean_text_hasNL3 (s : List Char) : hasNL3 (clean_text s) = false := by
  rw [clean_text]
  split
  · rfl
  · exact pyStrip_hasNL3 (cb_hasNL3 (cnl_hasNL3 (sbnl (normCR s))))

theorem clean_text_pBB (s : List Char) : hasPair pBB (clean_text s) = false := by
  rw [clean_text]
  split
  · rfl
  · exact pyStrip_hasPair (cb_pBB (cnl (sbnl (normCR s))))

theorem clean_text_stripped (s : List Char) : pyStrip (clean_text s) = clean_text s := by
  rw [clean_text]
  split
  · rfl
  · exact pyStrip_idem _

/-- Claim C5: the normalization `clean_text` is idempotent — cleaning an
already-cleaned string returns it unchanged. -/
theorem clean_text_idempotent (s : List Char) :
    clean_text (clean_text s) = clean_text s := by
  by_cases hs : clean_text s = []
  · rw [hs]; rfl
  · conv_lhs => rw [clean_text]
    rw [if_neg hs]
    rw [normCR_id _ (clean_text_no_cr s)]
    rw [sbnl_id (clean_text_pBNL s)]
    rw [cnl_id (clean_text_hasNL3 s)]
    rw [cb_id (clean_text_pBB s)]
    exact clean_text_stripped s



/-! Length lemmas for stripping and the overlap seed -/

theorem dtw_length_le (l : List Char) : (dropTrailingWs l).length ≤ l.length := by
  obtain ⟨t, ht⟩ := dtw_decomp l
  have h : l.length = (dropTrailingWs l).length + t.length := by
    conv_lhs => rw [ht]
    rw [List.length_append]
  omega

theorem dw_length_le (q : Char → Bool) (l : List Char) :
    (l.dropWhile q).length ≤ l.length := by
  induction l with
  | nil => simp
  | cons c cs ih =>
    rw [List.dropWhile_cons]
    split
    · exact le_trans ih (Nat.le_succ _)
    · simp

theorem pyStrip_length_le (l : List Char) : (pyStrip l).length ≤ l.length :=
  le_trans (dtw_length_le _) (dw_length_le _ _)

theorem overlapSeedRaw_length_le (cur : List Char) (ov : Nat) :
    (overlapSeedRaw cur ov).length ≤ ov := by
  unfold overlapSeedRaw pySliceFrom
  split <;> rw [List.length_drop] <;> omega

/-! The chunk-size invariant of the accumulation loop -/

theorem chunkLoop_len_le (maxChars ov : Nat) :
    ∀ (ps : List (List Char)) (cur : List Char),
      (∀ p ∈ ps, p.length ≤ maxChars) → cur.length ≤ maxChars + ov + 2 →
      ∀ c ∈ chunkLoop maxChars ov ps cur, c.length ≤ maxChars + ov + 2 := by
  intro ps
  induction ps with
  | nil =>
    intro cur hps hcur c hc
    rw [chunkLoop] at hc
    split at hc
    · simp at hc
    · rw [List.mem_singleton] at hc
      exact hc ▸ le_trans (pyStrip_length_le cur) hcur
  | cons p ps ih =>
    intro cur hps hcur c hc
    have hp : p.length ≤ maxChars := hps p (List.mem_cons_self _ _)
    have hps' : ∀ q ∈ ps, q.length ≤ maxChars :=
      fun q hq => hps q (List.mem_cons_of_mem _ hq)
    rw [chunkLoop] at hc
    split at hc
    · exact ih cur hps' hcur c hc
    · split at hc
      · rcases List.mem_cons.mp hc with h1 | h1
        · exact h1 ▸ le_trans (pyStrip_length_le cur) hcur
        · refine ih _ hps' ?_ c h1
          rw [List.length_append]
          have hseed := le_trans (pyStrip_length_le (overlapSeedRaw cur ov))
            (overlapSeedRaw_length_le cur ov)
          simp only [List.length_cons]
          omega
      · split at hc
        · next hseal hne =>
          refine ih _ hps' ?_ c hc
          rw [List.length_append]
          simp only [List.length_cons]
          have h2 : cur.length + p.length + 2 ≤ maxChars := by
            by_contra hgt
            exact hseal ⟨by omega, hne⟩
          omega
        · exact ih p hps' (by omega) c hc

/-- Claim C4 counterexample: with `max_chars = 10`, `overlap = 3` and the
text `"abcdefgh\n\nxxxxxxxxx"` — every paragraph fits in `max_chars`, so no
chunk is a single oversized paragraph — the second emitted chunk
`"fgh\n\nxxxxxxxxx"` has length `14 > max_chars + overlap = 13`: the claim's
bound misses the two-character `"\n\n"` separator joining the overlap seed
to its paragraph. -/
theorem chunk_size_claim_cex :
    (∀ p ∈ splitNN c4Text, p.length ≤ 10) ∧
    ∃ c ∈ chunk_text_by_paragraphs c4Text 10 3, 10 + 3 < c.length := by
  decide

/-- Claim C4 (amended): for every input text all of whose paragraphs fit in
`max_chars` (so that no chunk can contain a single oversized paragraph),
every chunk emitted by `chunk_text_by_paragraphs` has length at most
`max_chars + overlap + 2`, the 2 accounting for the `"\n\n"` separator
inserted between the overlap seed and the paragraph that sealed the
previous chunk. -/
theorem chunk_size_soft_bound (text : List Char) (maxChars ov : Nat)
    (hmax : 0 < maxChars)
    (hps : ∀ p ∈ splitNN text, p.length ≤ maxChars) :
    ∀ c ∈ chunk_text_by_paragraphs text maxChars ov, c.length ≤ maxChars + ov + 2 := by
  intro c hc
  rw [chunk_text_by_paragraphs] at hc
  split at hc
  · simp at hc
  · exact chunkLoop_len_le maxChars ov (splitNN text) [] hps (by simp) c hc

/-- Witness for the amended C4 bound at the spec's concrete scenario
(`"A\n\nB\n\nC"`, `max_chars = 2048`, `overlap = 150`). -/
theorem chunk_size_soft_bound_witness :
    (0 < 2048) ∧ (∀ p ∈ splitNN ("A\n\nB\n\nC".toList), p.length ≤ 2048) ∧
    ∀ c ∈ chunk_text_by_paragraphs ("A\n\nB\n\nC".toList) 2048 150,
      c.length ≤ 2048 + 150 + 2 :=
  ⟨by decide, by decide,
    chunk_size_soft_bound ("A\n\nB\n\nC".toList) 2048 150 (by decide) (by decide)⟩

/-! Claim C10: the slice semantics of the overlap seed -/

/-- Claim C10 counterexample: for a sealed chunk `"abcde"` of length
`L = 5` and `overlap = 5`, the bounds `L ≤ overlap < 2*L` of the claim
hold, yet the raw seed `current_chunk[L - overlap:] = current_chunk[0:]`
is the **whole** chunk, not the trailing `overlap - L = 0` characters
(`drop (2*L - overlap)` of it): the claim's lower boundary is off by one
(`overlap = L` yields the full chunk). -/
theorem overlap_seed_claim_cex :
    ("abcde".toList).length ≤ 5 ∧ 5 < 2 * ("abcde".toList).length ∧
    overlapSeedRaw ("abcde".toList) 5 = "abcde".toList ∧
    overlapSeedRaw ("abcde".toList) 5 ≠
      ("abcde".toList).drop (2 * ("abcde".toList).length - 5) := by
  decide

/-- Claim C10 (amended): for a sealed chunk of length `L`, the raw seed
`current_chunk[L - overlap:]` is, by Python's negative-index slice
semantics, the trailing `overlap - L` characters — a strict suffix, not
the whole chunk — exactly when `L < overlap < 2*L` (strictly); the seed is
the entire sealed chunk when `overlap = L` and when `overlap ≥ 2*L`. -/
theorem overlap_seed_semantics (s : List Char) (ov : Nat) :
    (s.length < ov → ov < 2 * s.length →
      overlapSeedRaw s ov = s.drop (2 * s.length - ov) ∧ overlapSeedRaw s ov ≠ s) ∧
    (2 * s.length ≤ ov → overlapSeedRaw s ov = s) ∧
    (ov = s.length → overlapSeedRaw s ov = s) := by
  refine ⟨fun h1 h2 => ⟨?_, ?_⟩, fun h => ?_, fun h => ?_⟩
  · unfold overlapSeedRaw pySliceFrom
    rw [if_pos (by omega)]
    congr 1
    omega
  · have he : overlapSeedRaw s ov = s.drop (2 * s.length - ov) := by
      unfold overlapSeedRaw pySliceFrom
      rw [if_pos (by omega)]
      congr 1
      omega
    rw [he]
    intro hcontra
    have := congrArg List.length hcontra
    rw [List.length_drop] at this
    omega
  · unfold overlapSeedRaw pySliceFrom
    split
    · have hm : (max 0 ((s.length : Int) + ((s.length : Int) - (ov : Int)))).toNat = 0 := by
        omega
      rw [hm, List.drop_zero]
    · next hneg =>
      have hm : (((s.length : Int) - (ov : Int))).toNat = 0 := by omega
      rw [hm, List.drop_zero]
  · unfold overlapSeedRaw pySliceFrom
    rw [if_neg (by omega)]
    have hm : (((s.length : Int) - (ov : Int))).toNat = 0 := by omega
    rw [hm, List.drop_zero]

/-- Witness for the amended C10 at `"abcde"` with overlaps 7, 12 and 5. -/
theorem overlap_seed_semantics_witness :
    overlapSeedRaw ("abcde".toList) 7 =
        ("abcde".toList).drop (2 * ("abcde".toList).length - 7) ∧
    overlapSeedRaw ("abcde".toList) 7 ≠ "abcde".toList ∧
    overlapSeedRaw ("abcde".toList) 12 = "abcde".toList ∧
    overlapSeedRaw ("abcde".toList) 5 = "abcde".toList := by
  obtain ⟨h1, h2⟩ := (overlap_seed_semantics ("abcde".toList) 7).1 (by decide) (by decide)
  exact ⟨h1, h2, (overlap_seed_semantics ("abcde".toList) 12).2.1 (by decide),
    (overlap_seed_semantics ("abcde".toList) 5).2.2 (by decide)⟩

/-! Claim C1 -/

/-- Claim C1 counterexample: in `envC1` the metadata JSON is a non-list
value (a dict, carrying a `len()`), both artifact files exist and
everything else is healthy — yet `VectorClient.__init__` returns a client
instead of raising: the non-list shape only triggers `logger.warning`
(src/vector_client.py lines 66-67) and the `len()` of line 68 succeeds. -/
theorem clientInit_nonlist_cex :
    envC1.metaParse = some (MetaJson.nonListSized 3) ∧ envC1.indexFileExists = true ∧
    envC1.metaFileExists = true ∧ initOk envC1 = true :=
  ⟨rfl, rfl, rfl, rfl⟩

/-- Claim C1 (amended): construction succeeds exactly when both artifact
files exist, faiss is importable, the metadata load step completes — the
JSON parses and the parsed value supports `len()`, since line 68's
`logger.info("Loaded %d metadata entries", len(self.metadata))` evaluates
`len(self.metadata)` eagerly and raises `TypeError` on null, numbers and
booleans — the index blob loads, and some embedding backend is available.
A non-list metadata value that does support `len()` (a dict or a string)
only triggers a warning and does not make construction fail. -/
theorem clientInit_ok_iff (env : InitEnv) :
    initOk env = (env.indexFileExists && env.metaFileExists && env.faissAvailable &&
      metaLoadOk env && env.faissLoadOk && embedderAvailable env) := by
  obtain ⟨f1, f2, f3, f4, mp, f5, inj, s1, s2, se, t1, tf, n1, n2, ixs⟩ := env
  simp only [initOk, clientInit, embedderAvailable, metaLoadOk]
  cases f1 <;> cases f2 <;> cases f3 <;> cases f4 <;> rcases mp with _ | mj <;>
    try cases mj
  all_goals
    cases f5 <;> rcases inj with _ | f <;> cases s1 <;> cases s2 <;> cases t1 <;>
      simp [MetaJson.hasLen]

/-! Claim C2 -/

/-- Claim C2: when client construction raises, or the search raises,
`retrieve` returns exactly one record with zero score, title `"ERROR"`,
the error message in the excerpt and null remaining fields; `retrieve`
itself is total (both calls are inside `try/except`), so no exception
reaches the caller. -/
theorem retrieve_degraded (env : InitEnv) (q : String) (k : Int) :
    (∀ e, get_client env = .error e →
      retrieve env q k = [⟨0, none, some "ERROR",
        "VectorClient initialization failed: " ++ e, none, none⟩]) ∧
    (∀ c e, get_client env = .ok c → VCState.search c q k = .error e →
      retrieve env q k = [⟨0, none, some "ERROR",
        "Vector search failed: " ++ e, none, none⟩]) := by
  constructor
  · intro e he
    simp only [retrieve, he]
    rfl
  · intro c e hc hs
    simp only [retrieve, hc, hs]
    rfl

/-- Witness for C2: with a missing index file, `retrieve "anything" 5`
returns exactly the one synthetic record. -/
theorem retrieve_degraded_witness :
    retrieve envW2 "anything" 5 = [⟨0, none, some "ERROR",
      "VectorClient initialization failed: " ++
        ("VectorClient failed to load.\nCheck your FAISS index + metadata and ensure sentence-transformers or TF-IDF fallback works.\nError: " ++
          InitError.msg .fileNotFound), none, none⟩] :=
  (retrieve_degraded envW2 "anything" 5).1 _ rfl

/-! Claim C6 -/

/-- Claim C6: `search` clamps `k ≤ 0` to 1, so searching with any
non-positive `k` returns exactly the result of searching with `k = 1`. -/
theorem search_k_clamped (c : VCState) (q : String) (k : Int) (hk : k ≤ 0) :
    VCState.search c q k = VCState.search c q 1 := by
  unfold VCState.search
  rw [show clampK k = clampK 1 from by
    unfold clampK
    rw [if_pos hk, if_neg (by omega : ¬ (1 : Int) ≤ 0)]]

/-- Witness for C6 at `k = 0` on the concrete client. -/
theorem search_k_clamped_witness :
    VCState.search cW "q" 0 = VCState.search cW "q" 1 :=
  search_k_clamped cW "q" 0 (by decide)

/-! Claim C7 -/

theorem searchAssemble_eq (meta : List MetaEntry) (pairs : List (Score × Int)) :
    searchAssemble meta pairs =
      (pairs.filter (fun p => decide (0 ≤ p.2) && decide (p.2 < (meta.length : Int)))).map
        (fun p => mkHit p.1 (meta.getD p.2.toNat dMeta)) := by
  induction pairs with
  | nil => rfl
  | cons p rest ih =>
    obtain ⟨s, i⟩ := p
    rw [searchAssemble]
    by_cases h1 : i < 0
    · have hp : (decide (0 ≤ i) && decide (i < (meta.length : Int))) = false := by
        have h2 : ¬ (0 ≤ i) := by omega
        simp [h2]
      rw [if_pos h1, ih, List.filter_cons, if_neg (by simp [hp])]
    · by_cases h2 : (meta.length : Int) ≤ i
      · have hp : (decide (0 ≤ i) && decide (i < (meta.length : Int))) = false := by
          have h3 : ¬ (i < (meta.length : Int)) := by omega
          simp [h3]
        rw [if_neg h1, if_pos h2, ih, List.filter_cons, if_neg (by simp [hp])]
      · have hp : (decide (0 ≤ i) && decide (i < (meta.length : Int))) = true := by
          have h3 : (0 : Int) ≤ i := by omega
          have h4 : i < (meta.length : Int) := by omega
          simp [h3, h4]
        rw [if_neg h1, if_neg h2, ih, List.filter_cons, if_pos (by simp [hp]),
          List.map_cons]

/-- Claim C7: whenever the underlying index search returns a pair list,
`search` raises nothing and returns exactly the pairs whose position is
neither negative nor at/past the metadata length, projected to result
records, in the order the index returned them. -/
theorem search_skips_invalid (c : VCState) (q : String) (k : Int) (qv : List Vec)
    (pairs : List (Score × Int))
    (hq : embed_query c q = .ok qv)
    (hs : c.indexSearch qv (clampK k) = .ok pairs) :
    VCState.search c q k = .ok
      ((pairs.filter (fun p => decide (0 ≤ p.2) && decide (p.2 < (c.metadata.length : Int)))).map
        (fun p => mkHit p.1 (c.metadata.getD p.2.toNat dMeta))) := by
  simp only [VCState.search, hq, hs]
  rw [searchAssemble_eq]

/-- Witness for C7: the concrete index oracle returns a negative, an
out-of-range and a valid position; only the valid one survives. -/
theorem search_skips_invalid_witness :
    VCState.search cW "q" 5 = .ok
      ((([((1 : ℝ), (-1 : Int)), (1, 5), (1, 0)]).filter
          (fun p => decide (0 ≤ p.2) && decide (p.2 < ((cW.metadata).length : Int)))).map
        (fun p => mkHit p.1 (cW.metadata.getD p.2.toNat dMeta))) :=
  search_skips_invalid cW "q" 5 [[1]] [((1 : ℝ), (-1 : Int)), (1, 5), (1, 0)] rfl rfl

/-! Claim C8 -/

theorem pyTake_length_le (s : String) (n : Nat) : (pyTake s n).length ≤ n := by
  unfold pyTake
  rw [show (List.asString (s.toList.take n)).length = (s.toList.take n).length from rfl,
    List.length_take]
  exact min_le_left _ _

theorem searchAssemble_excerpt (meta : List MetaEntry) :
    ∀ (pairs : List (Score × Int)), ∀ h ∈ searchAssemble meta pairs,
      h.excerpt.length ≤ 800 := by
  intro pairs
  induction pairs with
  | nil => intro h hm; simp [searchAssemble] at hm
  | cons p rest ih =>
    obtain ⟨s, i⟩ := p
    intro h hm
    rw [searchAssemble] at hm
    split at hm
    · exact ih h hm
    · split at hm
      · exact ih h hm
      · rcases List.mem_cons.mp hm with h1 | h1
        · rw [h1]
          exact pyTake_length_le _ 800
        · exact ih h h1

/-- Claim C8: every record of a successful search carries an excerpt of at
most 800 characters (`(meta.get("text") or "")[:800]`), however long the
stored metadata text is. -/
theorem search_excerpt_bounded (c : VCState) (q : String) (k : Int)
    (res : List SearchHit) (h : VCState.search c q k = .ok res) :
    ∀ hit ∈ res, hit.excerpt.length ≤ 800 := by
  unfold VCState.search at h
  split at h
  · exact absurd h (by simp)
  · split at h
    · exact absurd h (by simp)
    · injection h with h2
      subst h2
      exact searchAssemble_excerpt _ _

/-- Witness for C8: the stored text has 900 characters; the returned
excerpt is capped at 800. -/
theorem search_excerpt_bounded_witness :
    (mkHit (1 : ℝ) mLong).excerpt.length ≤ 800 :=
  search_excerpt_bounded cW "q" 5 [mkHit 1 mLong] rfl
    (mkHit 1 mLong) (List.mem_cons_self _ _)

/-! Claim C3 -/

/-- Claim C3: under the embedding backend's contract (one vector per input
text), a successful build yields a metadata list of the same length as the
index's vector count, with one metadata entry per record in record order,
and vector `i` is the (normalized) embedding of the same record's text. -/
theorem build_alignment (env : BuildEnv) (records : List ChunkRecord) (out : BuildOut)
    (hmain : createEmbeddingsMain env records = some out)
    (hlen : (env.encode (records.map (fun r => r.text))).length = records.length) :
    out.metadata.length = out.index.ntotal ∧
    out.metadata.length = records.length ∧
    ∀ (i : Nat) r0, records[i]? = some r0 →
      out.metadata[i]? = some (minimalMetaOf r0) ∧
      out.index.vectors[i]? =
        ((env.encode (records.map (fun r => r.text)))[i]?).map env.normRow ∧
      (records.map (fun r => r.text))[i]? = some r0.text := by
  unfold createEmbeddingsMain build_faiss_index at hmain
  split at hmain
  · exact absurd hmain (by simp)
  · cases hfa : env.faissAvailable
    · rw [hfa] at hmain
      simp at hmain
    · rw [hfa] at hmain
      simp only [Bool.not_true, Bool.false_eq_true, if_false, Option.some.injEq] at hmain
      subst hmain
      refine ⟨?_, ?_, ?_⟩
      · simp [FlatIndex.ntotal, hlen]
      · simp
      · intro i r0 hr
        refine ⟨?_, ?_, ?_⟩
        · simp [List.getElem?_map, hr]
        · simp [List.getElem?_map]
        · simp [List.getElem?_map, hr]

/-- Witness for C3 on a one-record batch. -/
theorem build_alignment_witness :
    createEmbeddingsMain bEnvW [recW] = some ⟨⟨[[(1 : ℝ)]]⟩, [minimalMetaOf recW]⟩ ∧
    ([minimalMetaOf recW] : List MetaEntry).length = FlatIndex.ntotal ⟨[[(1 : ℝ)]]⟩ ∧
    ([minimalMetaOf recW] : List MetaEntry)[0]? = some (minimalMetaOf recW) := by
  refine ⟨rfl, ?_, ?_⟩
  · exact (build_alignment bEnvW [recW] ⟨⟨[[(1 : ℝ)]]⟩, [minimalMetaOf recW]⟩ rfl rfl).1
  · exact ((build_alignment bEnvW [recW] ⟨⟨[[(1 : ℝ)]]⟩, [minimalMetaOf recW]⟩ rfl rfl).2.2
      0 recW rfl).1

/-! Claim C9 -/

theorem sumSq_nil : sumSq ([] : List ℝ) = 0 := by simp [sumSq]

theorem sumSq_cons (x : ℝ) (v : List ℝ) : sumSq (x :: v) = x ^ 2 + sumSq v := by
  simp [sumSq]

theorem sumSq_nonneg (v : List ℝ) : 0 ≤ sumSq v := by
  induction v with
  | nil => rw [sumSq_nil]
  | cons x v ih =>
    rw [sumSq_cons]
    have := sq_nonneg x
    nlinarith

theorem sumSq_eq_zero_iff (v : List ℝ) : sumSq v = 0 ↔ ∀ x ∈ v, x = 0 := by
  induction v with
  | nil => simp [sumSq_nil]
  | cons x v ih =>
    rw [sumSq_cons]
    rw [add_eq_zero_iff_of_nonneg (sq_nonneg x) (sumSq_nonneg v)]
    rw [pow_eq_zero_iff (by norm_num : (2 : ℕ) ≠ 0), ih]
    simp

theorem sumSq_map_div (v : List ℝ) (c : ℝ) :
    sumSq (v.map (fun x => x / c)) = sumSq v / c ^ 2 := by
  induction v with
  | nil => simp [sumSq]
  | cons x v ih =>
    rw [List.map_cons, sumSq_cons, sumSq_cons, ih, div_pow, div_add_div_same]

/-- Claim C9: in TF-IDF mode `_encode` produces exactly one row per input
text, each obtained by the single fitted transform followed by the
source's row normalization; a row that is all zeros is returned unchanged
(its norm is replaced by 1, so no division by zero occurs), and a row with
a nonzero component comes back with unit L2 norm (sum of squares 1). -/
theorem tfidf_encode_rows (tr : String → List ℝ) (texts : List String) :
    (tfidfRows tr texts).length = texts.length ∧
    Embedder.encodeFn (.tfidf tr) texts = .ok (tfidfRows tr texts) ∧
    (∀ (i : Nat) t0, texts[i]? = some t0 →
      (tfidfRows tr texts)[i]? = some (pyNormRow (tr t0))) ∧
    (∀ v : List ℝ, (∀ x ∈ v, x = 0) → pyNormRow v = v) ∧
    (∀ v : List ℝ, (∃ x ∈ v, x ≠ 0) → sumSq (pyNormRow v) = 1) := by
  refine ⟨by simp [tfidfRows], rfl, ?_, ?_, ?_⟩
  · intro i t0 ht
    unfold tfidfRows
    rw [List.getElem?_map, List.getElem?_map, ht]
    rfl
  · intro v hv
    have h0 : sumSq v = 0 := (sumSq_eq_zero_iff v).mpr hv
    have hn : rowNorm v = 0 := by
      unfold rowNorm
      rw [h0, Real.sqrt_zero]
    unfold pyNormRow
    rw [if_pos hn]
    simp
  · intro v hv
    obtain ⟨x, hx, hx0⟩ := hv
    have hpos : 0 < sumSq v :=
      lt_of_le_of_ne (sumSq_nonneg v)
        (fun he => hx0 ((sumSq_eq_zero_iff v).mp he.symm x hx))
    have hn : rowNorm v ≠ 0 := by
      unfold rowNorm
      exact ne_of_gt (Real.sqrt_pos.mpr hpos)
    unfold pyNormRow
    rw [if_neg hn, sumSq_map_div,
      show rowNorm v ^ 2 = sumSq v from Real.sq_sqrt (sumSq_nonneg v)]
    exact div_self (ne_of_gt hpos)

/-- Witness for C9: a one-text batch, an all-zero row, and the row
`[3, 4]` normalized to unit norm. -/
theorem tfidf_encode_rows_witness :
    (tfidfRows trW ["a"]).length = 1 ∧
    pyNormRow ([0, 0] : List ℝ) = [0, 0] ∧
    sumSq (pyNormRow ([3, 4] : List ℝ)) = 1 := by
  refine ⟨(tfidf_encode_rows trW ["a"]).1, ?_, ?_⟩
  · exact (tfidf_encode_rows trW ["a"]).2.2.2.1 [0, 0] (by simp)
  · exact (tfidf_encode_rows trW ["a"]).2.2.2.2 [3, 4] ⟨3, by simp, by norm_num⟩

end RagLegal
